import Mathlib

/-!
# Verification of the Fraud run-time printer (`www/notes/fraud/main.c`)

The C file defines `main`, `print_result` and `error`.  It includes `types.h`,
which is not among the sources: the nine constants it provides are taken as a
parameter (`Types`).  `entry` and `print_char` are external routines.

Machine words (`int64_t`) are represented by their 64-bit twos-complement
pattern, a natural number below `2 ^ 64`; `toInt64` reads a pattern as the
signed value and `toWord64` wraps an integer to its pattern.
-/

namespace Fraud

/-! ## Data model -/

/-- The constants that `main.c` takes from `types.h`, each as a 64-bit pattern
(`int_shift` as a shift count). -/
structure Types where
  int_shift : Nat
  int_type_mask : Nat
  int_type_tag : Nat
  char_type_mask : Nat
  char_type_tag : Nat
  val_true : Nat
  val_false : Nat
  val_eof : Nat
  val_void : Nat
  deriving DecidableEq, Repr

/-- Signed value of a 64-bit pattern (twos complement). -/
def toInt64 (w : Nat) : Int :=
  if w < 2 ^ 63 then (w : Int) else (w : Int) - 2 ^ 64

/-- Pattern of an integer, wrapped to 64 bits. -/
def toWord64 (i : Int) : Nat :=
  (i % 2 ^ 64).toNat

/-- What the run-time system does that can be observed: text handed to
`printf`, and calls of the external `print_char` with their argument. -/
inductive Event where
  | printf (text : String)
  | print_char (arg : Nat)
  deriving DecidableEq, Repr

/-- How a routine ends: it returns a value to its caller, or the process is
terminated by `exit` with a status. -/
inductive Outcome (α : Type) where
  | returned (a : α)
  | exited (status : Nat)
  deriving DecidableEq, Repr

/-- A run of a routine: the events it produced, in order, and how it ended. -/
structure Run (α : Type) where
  events : List Event
  outcome : Outcome α
  deriving DecidableEq, Repr

/-- Sequencing of C statements: the second part runs only when the first one
returned. -/
def Run.bind {α β : Type} (r : Run α) (k : α → Run β) : Run β :=
  match r.outcome with
  | .returned a => ⟨r.events ++ (k a).events, (k a).outcome⟩
  | .exited c => ⟨r.events, .exited c⟩

instance : Monad Run where
  pure a := ⟨[], .returned a⟩
  bind := Run.bind

/-- Text that `printf` writes for the conversion `"%" PRId64`: a minus sign for
a negative value, then the decimal digits of the magnitude. -/
def fmt_PRId64 (n : Int) : String :=
  if n < 0 then "-" ++ Nat.repr n.natAbs else Nat.repr n.natAbs

/-- Value of a decimal digit character. -/
def digit_value (c : Char) : Nat := c.toNat - '0'.toNat

/-- Number denoted by a string of decimal digits, most significant first. -/
def decimal_value (cs : List Char) : Nat :=
  cs.foldl (fun a c => 10 * a + digit_value c) 0

/-- Integer denoted by a decimal literal with an optional leading minus sign. -/
def signed_decimal_value (cs : List Char) : Int :=
  match cs with
  | [] => 0
  | c :: ds => if c = '-' then -(decimal_value ds : Int) else (decimal_value (c :: ds) : Int)

/-- The library call `printf(text)` with the conversions already expanded. -/
def printf (text : String) : Run Unit :=
  ⟨[.printf text], .returned ()⟩

/-- The library call `exit(status)`: the process ends, nothing returns. -/
def exit {α : Type} (status : Nat) : Run α :=
  ⟨[], .exited status⟩

/-- A call of the external `void print_char(int64_t)`; it is recorded with its
argument and is taken to return to its caller. -/
def print_char (v : Nat) : Run Unit :=
  ⟨[.print_char v], .returned ()⟩

/-- Standard output of a list of events, given the text that the external
`print_char` writes for each word. -/
def stdout (char_text : Nat → String) : List Event → String
  | [] => ""
  | .printf s :: es => s ++ stdout char_text es
  | .print_char v :: es => char_text v ++ stdout char_text es

/-- Number of calls of `print_char` among the events. -/
def print_char_calls : List Event → Nat
  | [] => 0
  | .printf _ :: es => print_char_calls es
  | .print_char _ :: es => print_char_calls es + 1

/-! ## The routines of `main.c` -/

/-- The C function `print_result`.  `result >> int_shift` on the signed word is
the arithmetic shift `Int.shiftRight` (C defines the shift for
`int_shift < 64`).  The `switch` without `default` is the chain of equality
tests on its labels; C requires the labels to be distinct. -/
def print_result (T : Types) (result : Nat) : Run Unit :=
  if T.int_type_tag = (T.int_type_mask &&& result) then
    printf (fmt_PRId64 (toInt64 result >>> T.int_shift) ++ "\n")
  else if T.char_type_tag = (T.char_type_mask &&& result) then do
    print_char result
    printf "\n"
  else
    if result = T.val_true then printf "#t\n"
    else if result = T.val_false then printf "#f\n"
    else if result = T.val_eof then printf "#<eof>\n"
    else if result = T.val_void then pure ()
    else pure ()

/-- The C function `error`. -/
def error : Run Unit := do
  printf "err\n"
  exit 1

/-- The C function `main`, given the run of the external `entry`. -/
def main (T : Types) (entry : Run Nat) : Run Nat := do
  let v ← entry
  print_result T v
  return 0

/-- Exit status of the process whose `main` made the given run: the status
passed to `exit`, or the value `main` returned. -/
def exit_status (r : Run Nat) : Nat :=
  match r.outcome with
  | .returned c => c
  | .exited c => c

/-- The integer encoding scheme: the 64-bit word `(n << int_shift) | int_type_tag`. -/
def encode_int (T : Types) (n : Int) : Nat :=
  toWord64 (n * 2 ^ T.int_shift) ||| T.int_type_tag

/-- An instance of the constants with a one-bit integer tag, a two-bit
character tag and the four singletons above them. -/
def sample_types : Types where
  int_shift := 1
  int_type_mask := 1
  int_type_tag := 0
  char_type_mask := 3
  char_type_tag := 1
  val_true := 3
  val_false := 7
  val_eof := 11
  val_void := 15

/-- An instance of the constants in which `val_true` carries the integer tag
and `val_false` the character tag; the four singletons are distinct. -/
def clash_types : Types where
  int_shift := 1
  int_type_mask := 1
  int_type_tag := 0
  char_type_mask := 3
  char_type_tag := 1
  val_true := 2
  val_false := 5
  val_eof := 11
  val_void := 15

/-- The integer test, written as the specification does:
`(value & int_type_mask) == int_type_tag`. -/
abbrev int_test (T : Types) (v : Nat) : Prop :=
  v &&& T.int_type_mask = T.int_type_tag

/-- The character test, written as the specification does:
`(value & char_type_mask) == char_type_tag`. -/
abbrev char_test (T : Types) (v : Nat) : Prop :=
  v &&& T.char_type_mask = T.char_type_tag

/-- The words for which `print_result` reaches a `printf`: the integer words,
the character words and the first three `switch` labels. -/
abbrev prints_line (T : Types) (v : Nat) : Prop :=
  int_test T v ∨ char_test T v ∨ v = T.val_true ∨ v = T.val_false ∨ v = T.val_eof

/-! ## Auxiliary facts -/

theorem digitChar_isDigit (d : Nat) (h : d < 10) : (Nat.digitChar d).isDigit = true := by
  interval_cases d <;> decide

theorem toDigitsCore_mem (f : Nat) : ∀ (n : Nat) (acc : List Char) (c : Char),
    c ∈ Nat.toDigitsCore 10 f n acc → c.isDigit = true ∨ c ∈ acc := by
  induction f with
  | zero => intro n acc c h; right; simpa [Nat.toDigitsCore] using h
  | succ f ih =>
    intro n acc c h
    simp only [Nat.toDigitsCore] at h
    split at h
    · rcases List.mem_cons.1 h with h | h
      · left; rw [h]; exact digitChar_isDigit _ (Nat.mod_lt _ (by decide))
      · right; exact h
    · rcases ih _ _ _ h with h | h
      · left; exact h
      · rcases List.mem_cons.1 h with h | h
        · left; rw [h]; exact digitChar_isDigit _ (Nat.mod_lt _ (by decide))
        · right; exact h

theorem toDigitsCore_ne_nil (f : Nat) : ∀ (n : Nat) (acc : List Char),
    acc ≠ [] ∨ 0 < f → Nat.toDigitsCore 10 f n acc ≠ [] := by
  induction f with
  | zero =>
    intro n acc h
    rcases h with h | h
    · simpa [Nat.toDigitsCore] using h
    · omega
  | succ f ih =>
    intro n acc _
    simp only [Nat.toDigitsCore]
    split
    · simp
    · exact ih _ _ (Or.inl (by simp))

/-- Every character of a rendered magnitude is a decimal digit. -/
theorem repr_mem_isDigit (m : Nat) (c : Char) (h : c ∈ (Nat.repr m).data) :
    c.isDigit = true := by
  have h2 : c ∈ Nat.toDigitsCore 10 (m + 1) m [] := by
    simpa [Nat.repr, Nat.toDigits, List.asString] using h
  rcases toDigitsCore_mem _ _ _ _ h2 with h3 | h3
  · exact h3
  · simp at h3

theorem repr_data_ne_nil (m : Nat) : (Nat.repr m).data ≠ [] := by
  have := toDigitsCore_ne_nil (m + 1) m [] (Or.inr (Nat.succ_pos m))
  simpa [Nat.repr, Nat.toDigits, List.asString] using this

/-- The text of a `"%" PRId64` conversion consists of digits and minus signs only. -/
theorem fmt_PRId64_mem (n : Int) (c : Char) (h : c ∈ (fmt_PRId64 n).data) :
    c = '-' ∨ c.isDigit = true := by
  unfold fmt_PRId64 at h
  split at h
  · rw [String.data_append] at h
    rcases List.mem_append.1 h with h | h
    · left; simpa using h
    · right; exact repr_mem_isDigit _ _ h
  · right; exact repr_mem_isDigit _ _ h

theorem fmt_PRId64_data_ne_nil (n : Int) : (fmt_PRId64 n).data ≠ [] := by
  unfold fmt_PRId64
  split
  · rw [String.data_append]; simp
  · exact repr_data_ne_nil _

theorem fmt_PRId64_no_newline (n : Int) : '\n' ∉ (fmt_PRId64 n).data := by
  intro h
  rcases fmt_PRId64_mem n _ h with h | h
  · exact absurd h (by decide)
  · exact absurd h (by decide)

theorem digit_value_digitChar (d : Nat) (h : d < 10) : digit_value (Nat.digitChar d) = d := by
  interval_cases d <;> decide

theorem foldl_toDigitsCore (f : Nat) : ∀ (n : Nat) (acc : List Char), n < f →
    (Nat.toDigitsCore 10 f n acc).foldl (fun a c => 10 * a + digit_value c) 0
      = acc.foldl (fun a c => 10 * a + digit_value c) n := by
  induction f with
  | zero => intro n acc h; omega
  | succ f ih =>
    intro n acc h
    simp only [Nat.toDigitsCore]
    split
    · rename_i h0
      rw [List.foldl_cons, digit_value_digitChar _ (Nat.mod_lt _ (by decide))]
      congr 1
      omega
    · rename_i h0
      rw [ih _ _ (by omega), List.foldl_cons,
        digit_value_digitChar _ (Nat.mod_lt _ (by decide))]
      congr 1
      omega

theorem decimal_value_repr (m : Nat) : decimal_value (Nat.repr m).data = m := by
  have h := foldl_toDigitsCore (m + 1) m [] (Nat.lt_succ_self m)
  simpa [decimal_value, Nat.repr, Nat.toDigits, List.asString] using h

/-- The text of a `"%" PRId64` conversion denotes the converted value. -/
theorem signed_decimal_value_fmt (n : Int) : signed_decimal_value (fmt_PRId64 n).data = n := by
  unfold fmt_PRId64
  split
  · rename_i hn
    rw [String.data_append]
    show signed_decimal_value ('-' :: (Nat.repr n.natAbs).data) = n
    simp only [signed_decimal_value, if_true, decimal_value_repr]
    omega
  · rename_i hn
    cases hd : (Nat.repr n.natAbs).data with
    | nil => exact absurd hd (repr_data_ne_nil _)
    | cons c ds =>
      have hc : c ≠ '-' := by
        intro e
        have := repr_mem_isDigit n.natAbs c (by rw [hd]; exact List.mem_cons_self _ _)
        rw [e] at this
        exact absurd this (by decide)
      simp only [signed_decimal_value, if_neg hc]
      rw [← hd, decimal_value_repr]
      omega

/-- A line made of a `"%" PRId64` conversion differs from every text whose
first character is neither a minus sign nor a digit. -/
theorem fmt_line_ne (n : Int) (s : String) (c : Char) (hs : s.data.head? = some c)
    (h1 : c ≠ '-') (h2 : c.isDigit ≠ true) : fmt_PRId64 n ++ "\n" ≠ s := by
  intro h
  have hd : (fmt_PRId64 n).data ++ ['\n'] = s.data := by
    rw [← h, String.data_append]
  cases hf : (fmt_PRId64 n).data with
  | nil => exact fmt_PRId64_data_ne_nil n hf
  | cons d ds =>
    rw [hf] at hd
    rw [← hd] at hs
    have hc : d = c := by simpa using hs
    have hm : d ∈ (fmt_PRId64 n).data := by rw [hf]; exact List.mem_cons_self _ _
    rcases fmt_PRId64_mem n d hm with h3 | h3
    · exact h1 (hc ▸ h3)
    · exact h2 (hc ▸ h3)

/-- Arithmetic right shift is the floor of the division by the power of two. -/
theorem shiftRight_eq_floor (x : Int) (k : Nat) : x >>> k = ⌊(x : ℚ) / 2 ^ k⌋ := by
  have h := Rat.floor_intCast_div_natCast x (2 ^ k)
  rw [Int.shiftRight_eq_div_pow]
  simpa using h.symm

/-! ## Facts on the 64-bit integer encoding -/

theorem toWord64_mul_pow (n : Int) (k : Nat) (hk : k ≤ 64) :
    toWord64 (n * 2 ^ k) = 2 ^ k * (n % 2 ^ (64 - k)).toNat := by
  unfold toWord64
  have h64 : (2:Int)^64 = 2^k * 2^(64-k) := by rw [← pow_add]; congr 1; omega
  have hp : (0:Int) < 2^k := by positivity
  rw [h64, mul_comm n, Int.mul_emod_mul_of_pos _ _ hp]
  have hx : 0 ≤ n % 2^(64-k) := Int.emod_nonneg _ (by positivity)
  obtain ⟨q, hq⟩ := Int.eq_ofNat_of_zero_le hx
  rw [hq]
  have : (2:Int)^k * (q:Int) = ((2^k * q : Nat) : Int) := by push_cast; rfl
  rw [this, Int.toNat_ofNat, Int.toNat_ofNat]

theorem and_mask_of_mul_or (k q t m : Nat) (ht : t < 2 ^ k) (hm : m < 2 ^ k)
    (htm : t &&& m = t) : (2 ^ k * q ||| t) &&& m = t := by
  apply Nat.eq_of_testBit_eq
  intro i
  rw [Nat.testBit_and, Nat.testBit_or, Nat.testBit_mul_pow_two]
  by_cases hi : i < k
  · have : decide (i ≥ k) = false := by simpa using hi
    rw [this, Bool.false_and, Bool.false_or, ← Nat.testBit_and, htm]
  · have hki : k ≤ i := Nat.le_of_not_lt hi
    have h1 : m.testBit i = false :=
      Nat.testBit_lt_two_pow (Nat.lt_of_lt_of_le hm (Nat.pow_le_pow_right (by decide) hki))
    have h2 : t.testBit i = false :=
      Nat.testBit_lt_two_pow (Nat.lt_of_lt_of_le ht (Nat.pow_le_pow_right (by decide) hki))
    rw [h1, h2, Bool.and_false]

theorem decode_encode (k t : Nat) (n : Int) (hk : k < 64) (ht : t < 2 ^ k)
    (hlo : -2 ^ (63 - k) ≤ n) (hhi : n < 2 ^ (63 - k)) :
    toInt64 (toWord64 (n * 2 ^ k) ||| t) >>> k = n := by
  rw [toWord64_mul_pow n k (Nat.le_of_lt hk), ← Nat.mul_add_lt_is_or ht, Int.shiftRight_eq_div_pow]
  have h64 : (2:Int) ^ (64 - k) = 2 * 2 ^ (63 - k) := by
    rw [← pow_succ']; congr 1; omega
  have hP : (2:Int) ^ 63 = 2 ^ k * 2 ^ (63 - k) := by rw [← pow_add]; congr 1; omega
  have hPn : (2:Nat) ^ 63 = 2 ^ k * 2 ^ (63 - k) := by rw [← pow_add]; congr 1; omega
  have hp : (0:Int) < 2 ^ k := by positivity
  have hq : (0:Int) < 2 ^ (63 - k) := by positivity
  have htz : ((t : Int)) / 2 ^ k = 0 := Int.ediv_eq_zero_of_lt (by omega) (by exact_mod_cast ht)
  unfold toInt64
  by_cases hn : 0 ≤ n
  · have hmod : n % 2 ^ (64 - k) = n := Int.emod_eq_of_lt hn (by rw [h64]; omega)
    rw [hmod]
    obtain ⟨a, rfl⟩ := Int.eq_ofNat_of_zero_le hn
    have ha : a < 2 ^ (63 - k) := by exact_mod_cast hhi
    have hlt : 2 ^ k * a + t < 2 ^ 63 := by
      rw [hPn]
      calc 2 ^ k * a + t < 2 ^ k * a + 2 ^ k := by omega
        _ = 2 ^ k * (a + 1) := by ring
        _ ≤ 2 ^ k * 2 ^ (63 - k) := Nat.mul_le_mul_left _ ha
    simp only [Int.toNat_ofNat, hlt, if_true]
    push_cast
    rw [Int.add_comm, Int.add_mul_ediv_left _ _ (ne_of_gt hp), htz]
    simp
  · have hn2 : n < 0 := Int.lt_of_not_ge hn
    have hmod : n % 2 ^ (64 - k) = n + 2 ^ (64 - k) := by
      rw [← Int.add_emod_self]
      exact Int.emod_eq_of_lt (by rw [h64]; omega) (by omega)
    rw [hmod]
    have hb0 : 0 ≤ n + 2 ^ (64 - k) := by rw [h64]; omega
    obtain ⟨b, hb⟩ := Int.eq_ofNat_of_zero_le hb0
    have hbQ : 2 ^ (63 - k) ≤ b := by
      have : (2:Int) ^ (63 - k) ≤ (b : Int) := by rw [← hb, h64]; omega
      exact_mod_cast this
    have hge : ¬ 2 ^ k * b + t < 2 ^ 63 := by
      rw [hPn, Nat.not_lt]
      exact Nat.le_trans (Nat.mul_le_mul_left _ hbQ) (Nat.le_add_right _ _)
    have h2 : (2:Int) ^ 64 = 2 ^ k * 2 ^ (64 - k) := by rw [← pow_add]; congr 1; omega
    rw [hb]
    simp only [Int.toNat_ofNat, hge, if_false]
    push_cast
    have e : (2:Int) ^ k * (b : Int) + (t : Int) - 18446744073709551616
        = (t : Int) + 2 ^ k * n := by
      have h3 : (18446744073709551616 : Int) = 2 ^ 64 := by norm_num
      rw [h3, h2, ← hb]; ring
    rw [e, Int.add_mul_ediv_left _ _ (ne_of_gt hp), htz]
    simp

/-! ## The three arms of `print_result` -/

theorem print_result_int (T : Types) (v : Nat) (h : int_test T v) :
    print_result T v = printf (fmt_PRId64 (toInt64 v >>> T.int_shift) ++ "\n") := by
  have h2 : T.int_type_tag = (T.int_type_mask &&& v) := by rw [Nat.and_comm]; exact h.symm
  simp [print_result, h2]

theorem print_result_char (T : Types) (v : Nat) (h1 : ¬ int_test T v)
    (h2 : char_test T v) :
    print_result T v = ⟨[.print_char v, .printf "\n"], .returned ()⟩ := by
  have h3 : ¬ T.int_type_tag = (T.int_type_mask &&& v) := by
    rw [Nat.and_comm]; exact fun e => h1 e.symm
  have h4 : T.char_type_tag = (T.char_type_mask &&& v) := by rw [Nat.and_comm]; exact h2.symm
  unfold print_result
  rw [if_neg h3, if_pos h4]
  rfl

theorem print_result_switch (T : Types) (v : Nat) (h1 : ¬ int_test T v)
    (h2 : ¬ char_test T v) :
    print_result T v =
      if v = T.val_true then printf "#t\n"
      else if v = T.val_false then printf "#f\n"
      else if v = T.val_eof then printf "#<eof>\n"
      else ⟨[], .returned ()⟩ := by
  have h3 : ¬ T.int_type_tag = (T.int_type_mask &&& v) := by
    rw [Nat.and_comm]; exact fun e => h1 e.symm
  have h4 : ¬ T.char_type_tag = (T.char_type_mask &&& v) := by
    rw [Nat.and_comm]; exact fun e => h2 e.symm
  unfold print_result
  rw [if_neg h3, if_neg h4]
  split_ifs <;> rfl

theorem encode_int_lt (T : Types) (n : Int) (hk : T.int_shift < 64)
    (htag : T.int_type_tag < 2 ^ T.int_shift) : encode_int T n < 2 ^ 64 := by
  unfold encode_int
  rw [toWord64_mul_pow n _ (Nat.le_of_lt hk), ← Nat.mul_add_lt_is_or htag]
  have hq : (n % 2 ^ (64 - T.int_shift)).toNat < 2 ^ (64 - T.int_shift) := by
    have h1 : n % 2 ^ (64 - T.int_shift) < 2 ^ (64 - T.int_shift) :=
      Int.emod_lt_of_pos _ (by positivity)
    have h0 : 0 ≤ n % 2 ^ (64 - T.int_shift) := Int.emod_nonneg _ (by positivity)
    obtain ⟨q, hq⟩ := Int.eq_ofNat_of_zero_le h0
    rw [hq] at h1 ⊢
    rw [Int.toNat_ofNat]
    exact_mod_cast h1
  have h64 : (2:Nat) ^ 64 = 2 ^ T.int_shift * 2 ^ (64 - T.int_shift) := by
    rw [← pow_add]; congr 1; omega
  rw [h64]
  calc 2 ^ T.int_shift * (n % 2 ^ (64 - T.int_shift)).toNat + T.int_type_tag
      < 2 ^ T.int_shift * (n % 2 ^ (64 - T.int_shift)).toNat + 2 ^ T.int_shift := by omega
    _ = 2 ^ T.int_shift * ((n % 2 ^ (64 - T.int_shift)).toNat + 1) := by ring
    _ ≤ 2 ^ T.int_shift * 2 ^ (64 - T.int_shift) := Nat.mul_le_mul_left _ hq

theorem encode_int_test (T : Types) (n : Int) (hk : T.int_shift < 64)
    (htag : T.int_type_tag < 2 ^ T.int_shift) (hmask : T.int_type_mask < 2 ^ T.int_shift)
    (hand : T.int_type_tag &&& T.int_type_mask = T.int_type_tag) :
    int_test T (encode_int T n) := by
  unfold int_test encode_int
  rw [toWord64_mul_pow n _ (Nat.le_of_lt hk)]
  exact and_mask_of_mul_or _ _ _ _ htag hmask hand

theorem print_result_returns (T : Types) (v : Nat) :
    (print_result T v).outcome = .returned () := by
  by_cases h1 : int_test T v
  · rw [print_result_int T v h1]; rfl
  · by_cases h2 : char_test T v
    · rw [print_result_char T v h1 h2]
    · rw [print_result_switch T v h1 h2]
      split_ifs <;> rfl

theorem print_result_no_err (T : Types) (v : Nat) :
    Event.printf "err\n" ∉ (print_result T v).events := by
  by_cases h1 : int_test T v
  · rw [print_result_int T v h1]
    intro h
    have h2 : "err\n" = fmt_PRId64 (toInt64 v >>> T.int_shift) ++ "\n" := by
      simpa [printf] using h
    exact fmt_line_ne _ "err\n" 'e' rfl (by decide) (by decide) h2.symm
  · by_cases h2 : char_test T v
    · rw [print_result_char T v h1 h2]
      simp
    · rw [print_result_switch T v h1 h2]
      split_ifs <;> simp [printf]

theorem bind_error_outcome (r : Run Unit) :
    (r.bind fun _ => error).outcome ≠ .returned () := by
  unfold Run.bind
  split
  · simp [error, bind, Run.bind, printf, exit]
  · simp

/-! ## The claims -/

/-- C1, integer round trip.  Let `k = int_shift < 64`, let the tag fit in the
low `k` bits, let the mask select only low `k` bits, and let
`int_type_tag & int_type_mask = int_type_tag`.  For every integer `n` with
`-2^(63-k) ≤ n < 2^(63-k)` the encoding `(n << k) | int_type_tag` is a 64-bit
word, and `print_result` applied to it returns after writing exactly the
decimal text of `n` followed by one newline; read back as a signed decimal
literal, that text denotes `n`. -/
theorem integer_round_trip (T : Types) (n : Int) (hk : T.int_shift < 64)
    (htag : T.int_type_tag < 2 ^ T.int_shift) (hmask : T.int_type_mask < 2 ^ T.int_shift)
    (hand : T.int_type_tag &&& T.int_type_mask = T.int_type_tag)
    (hlo : -2 ^ (63 - T.int_shift) ≤ n) (hhi : n < 2 ^ (63 - T.int_shift)) :
    encode_int T n < 2 ^ 64 ∧
    print_result T (encode_int T n) = ⟨[.printf (fmt_PRId64 n ++ "\n")], .returned ()⟩ ∧
    (∀ char_text, stdout char_text (print_result T (encode_int T n)).events
      = fmt_PRId64 n ++ "\n") ∧
    signed_decimal_value (fmt_PRId64 n).data = n := by
  have h1 := print_result_int T _ (encode_int_test T n hk htag hmask hand)
  have h2 : toInt64 (encode_int T n) >>> T.int_shift = n :=
    decode_encode T.int_shift T.int_type_tag n hk htag hlo hhi
  rw [h2] at h1
  refine ⟨encode_int_lt T n hk htag, h1, ?_, signed_decimal_value_fmt n⟩
  intro char_text
  rw [h1]
  simp [printf, stdout]

/-- Witness of C1: with a one-bit integer tag, 42 is printed as `42` and -7 as
`-7`, each followed by a newline. -/
theorem integer_round_trip_witness :
    print_result sample_types (encode_int sample_types 42)
      = ⟨[.printf "42\n"], .returned ()⟩ ∧
    print_result sample_types (encode_int sample_types (-7))
      = ⟨[.printf "-7\n"], .returned ()⟩ :=
  ⟨(integer_round_trip sample_types 42 (by decide) (by decide) (by decide) (by decide)
      (by decide) (by decide)).2.1,
   (integer_round_trip sample_types (-7) (by decide) (by decide) (by decide) (by decide)
      (by decide) (by decide)).2.1⟩

/-- C2, integer branch.  For every word `v` with
`(v & int_type_mask) == int_type_tag`, `print_result` returns after writing
exactly the decimal text of `floor (v / 2 ^ int_shift)`, `v` read as a signed
64-bit integer, followed by one newline, and nothing else; `print_char` is not
called. -/
theorem integer_branch (T : Types) (v : Nat) (h : int_test T v) :
    print_result T v
      = ⟨[.printf (fmt_PRId64 ⌊(toInt64 v : ℚ) / 2 ^ T.int_shift⌋ ++ "\n")], .returned ()⟩ ∧
    (∀ char_text, stdout char_text (print_result T v).events
      = fmt_PRId64 ⌊(toInt64 v : ℚ) / 2 ^ T.int_shift⌋ ++ "\n") ∧
    '\n' ∉ (fmt_PRId64 ⌊(toInt64 v : ℚ) / 2 ^ T.int_shift⌋).data ∧
    print_char_calls (print_result T v).events = 0 := by
  have h1 := print_result_int T v h
  rw [shiftRight_eq_floor] at h1
  refine ⟨h1, ?_, fmt_PRId64_no_newline _, ?_⟩
  · intro char_text
    rw [h1]
    simp [printf, stdout]
  · rw [h1]
    rfl

/-- Witness of C2: the word `2^64 - 14` carries the integer tag of the sample
constants; read as a signed integer it is -14, the floor of its half is -7,
and it is printed as `-7`. -/
theorem integer_branch_witness :
    int_test sample_types 18446744073709551602 ∧
    print_result sample_types 18446744073709551602
      = ⟨[.printf (fmt_PRId64 ⌊(toInt64 18446744073709551602 : ℚ)
          / 2 ^ sample_types.int_shift⌋ ++ "\n")], .returned ()⟩ ∧
    ⌊(toInt64 18446744073709551602 : ℚ) / 2 ^ sample_types.int_shift⌋ = -7 ∧
    print_result sample_types 18446744073709551602 = ⟨[.printf "-7\n"], .returned ()⟩ :=
  ⟨by decide, (integer_branch sample_types 18446744073709551602 (by decide)).1,
    by norm_num [toInt64, sample_types], by decide⟩

/-- C3, singleton decoding.  Each singleton constant of the ABI, that is a
constant that fails the integer test and the character test and differs from
the `switch` labels before it, is decoded by exact equality whatever its other
bits are: `print_result` writes exactly `#t`, `#f`, `#<eof>` with a newline for
`val_true`, `val_false`, `val_eof`, and nothing for `val_void`. -/
theorem singleton_decoding (T : Types) :
    (¬ int_test T T.val_true ∧ ¬ char_test T T.val_true →
      print_result T T.val_true = ⟨[.printf "#t\n"], .returned ()⟩) ∧
    (¬ int_test T T.val_false ∧ ¬ char_test T T.val_false ∧ T.val_false ≠ T.val_true →
      print_result T T.val_false = ⟨[.printf "#f\n"], .returned ()⟩) ∧
    (¬ int_test T T.val_eof ∧ ¬ char_test T T.val_eof ∧ T.val_eof ≠ T.val_true ∧
        T.val_eof ≠ T.val_false →
      print_result T T.val_eof = ⟨[.printf "#<eof>\n"], .returned ()⟩) ∧
    (¬ int_test T T.val_void ∧ ¬ char_test T T.val_void ∧ T.val_void ≠ T.val_true ∧
        T.val_void ≠ T.val_false ∧ T.val_void ≠ T.val_eof →
      print_result T T.val_void = ⟨[], .returned ()⟩ ∧
      ∀ char_text, stdout char_text (print_result T T.val_void).events = "") := by
  refine ⟨?_, ?_, ?_, ?_⟩
  · rintro ⟨h1, h2⟩
    rw [print_result_switch T _ h1 h2, if_pos rfl]
    rfl
  · rintro ⟨h1, h2, ht⟩
    rw [print_result_switch T _ h1 h2, if_neg ht, if_pos rfl]
    rfl
  · rintro ⟨h1, h2, ht, hf⟩
    rw [print_result_switch T _ h1 h2, if_neg ht, if_neg hf, if_pos rfl]
    rfl
  · rintro ⟨h1, h2, ht, hf, he⟩
    have h : print_result T T.val_void = ⟨[], .returned ()⟩ := by
      rw [print_result_switch T _ h1 h2, if_neg ht, if_neg hf, if_neg he]
    exact ⟨h, fun _ => by rw [h]; rfl⟩

/-- Witness of C3 on the sample constants, whose singletons 3, 7, 11 and 15
fail both mask tests and are distinct. -/
theorem singleton_decoding_witness :
    print_result sample_types 3 = ⟨[.printf "#t\n"], .returned ()⟩ ∧
    print_result sample_types 7 = ⟨[.printf "#f\n"], .returned ()⟩ ∧
    print_result sample_types 11 = ⟨[.printf "#<eof>\n"], .returned ()⟩ ∧
    print_result sample_types 15 = ⟨[], .returned ()⟩ :=
  ⟨(singleton_decoding sample_types).1 (by decide),
    (singleton_decoding sample_types).2.1 (by decide),
    (singleton_decoding sample_types).2.2.1 (by decide),
    ((singleton_decoding sample_types).2.2.2 (by decide)).1⟩

/-- C4, character branch.  A word that fails the integer test and passes the
character test makes `print_result` call `print_char` exactly once, with that
very word, and then write one newline, so that the output is the text of
`print_char` followed by a newline; for every other word `print_char` is not
called. -/
theorem character_branch (T : Types) (v : Nat) :
    (¬ int_test T v ∧ char_test T v →
      print_result T v = ⟨[.print_char v, .printf "\n"], .returned ()⟩ ∧
      print_char_calls (print_result T v).events = 1 ∧
      ∀ char_text, stdout char_text (print_result T v).events = char_text v ++ "\n") ∧
    (¬ (¬ int_test T v ∧ char_test T v) →
      print_char_calls (print_result T v).events = 0 ∧
      ∀ w, Event.print_char w ∉ (print_result T v).events) := by
  constructor
  · rintro ⟨h1, h2⟩
    have h := print_result_char T v h1 h2
    refine ⟨h, ?_, ?_⟩
    · rw [h]; rfl
    · intro char_text
      rw [h]
      simp [stdout]
  · intro hn
    by_cases h1 : int_test T v
    · rw [print_result_int T v h1]
      exact ⟨rfl, fun w => by simp [printf]⟩
    · have h2 : ¬ char_test T v := fun h2 => hn ⟨h1, h2⟩
      rw [print_result_switch T v h1 h2]
      split_ifs <;> exact ⟨rfl, fun w => by simp [printf]⟩

/-- Witness of C4: on the sample constants the word 389 is a character word and
is passed unchanged to `print_char`; the integer word 84 is not. -/
theorem character_branch_witness :
    (¬ int_test sample_types 389 ∧ char_test sample_types 389) ∧
    print_result sample_types 389 = ⟨[.print_char 389, .printf "\n"], .returned ()⟩ ∧
    print_char_calls (print_result sample_types 84).events = 0 :=
  ⟨by decide, ((character_branch sample_types 389).1 (by decide)).1,
    ((character_branch sample_types 84).2 (by decide)).1⟩

/-- C6 as stated fails: on the sample constants the word 23 is not `val_void`
(which is 15), yet `print_result` writes nothing for it. -/
theorem one_line_contract_counterexample :
    (23 : Nat) < 2 ^ 64 ∧ 23 ≠ sample_types.val_void ∧
    print_result sample_types 23 = ⟨[], .returned ()⟩ ∧
    ∀ char_text, stdout char_text (print_result sample_types 23).events = "" :=
  ⟨by decide, by decide, by decide, fun _ => rfl⟩

/-- C6, amended.  A word that passes the integer test or the character test,
or equals `val_true`, `val_false` or `val_eof`, makes `print_result` write one
line: a text followed by one newline, where the text is non-empty and free of
newlines in the integer and singleton forms and is the text of `print_char` in
the character form.  For every other word, `val_void` and unrecognized words
alike, nothing is written; so the output is empty exactly for those. -/
theorem one_line_contract (T : Types) (v : Nat) (char_text : Nat → String) :
    (prints_line T v →
      ∃ body, stdout char_text (print_result T v).events = body ++ "\n" ∧
        (¬ int_test T v ∧ char_test T v → body = char_text v) ∧
        (¬ (¬ int_test T v ∧ char_test T v) → body.data ≠ [] ∧ '\n' ∉ body.data)) ∧
    (¬ prints_line T v → (print_result T v).events = []) ∧
    (stdout char_text (print_result T v).events = "" ↔ ¬ prints_line T v) := by
  have key : prints_line T v →
      ∃ body, stdout char_text (print_result T v).events = body ++ "\n" ∧
        (¬ int_test T v ∧ char_test T v → body = char_text v) ∧
        (¬ (¬ int_test T v ∧ char_test T v) → body.data ≠ [] ∧ '\n' ∉ body.data) := by
    intro hp
    by_cases h1 : int_test T v
    · refine ⟨fmt_PRId64 (toInt64 v >>> T.int_shift), ?_, fun h => absurd h1 h.1, fun _ =>
        ⟨fmt_PRId64_data_ne_nil _, fmt_PRId64_no_newline _⟩⟩
      rw [print_result_int T v h1]
      simp [printf, stdout]
    · by_cases h2 : char_test T v
      · refine ⟨char_text v, ?_, fun _ => rfl, fun h => absurd ⟨h1, h2⟩ h⟩
        rw [print_result_char T v h1 h2]
        simp [stdout]
      · rw [print_result_switch T v h1 h2]
        rcases hp with h | h | h | h | h
        · exact absurd h h1
        · exact absurd h h2
        · rw [if_pos h]
          exact ⟨"#t", rfl, fun h => absurd h.2 h2, fun _ => by decide⟩
        · by_cases h3 : v = T.val_true
          · rw [if_pos h3]
            exact ⟨"#t", rfl, fun h => absurd h.2 h2, fun _ => by decide⟩
          · rw [if_neg h3, if_pos h]
            exact ⟨"#f", rfl, fun h => absurd h.2 h2, fun _ => by decide⟩
        · by_cases h3 : v = T.val_true
          · rw [if_pos h3]
            exact ⟨"#t", rfl, fun h => absurd h.2 h2, fun _ => by decide⟩
          · by_cases h4 : v = T.val_false
            · rw [if_neg h3, if_pos h4]
              exact ⟨"#f", rfl, fun h => absurd h.2 h2, fun _ => by decide⟩
            · rw [if_neg h3, if_neg h4, if_pos h]
              exact ⟨"#<eof>", rfl, fun h => absurd h.2 h2, fun _ => by decide⟩
  have silent : ¬ prints_line T v → (print_result T v).events = [] := by
    intro hn
    simp only [prints_line, not_or] at hn
    obtain ⟨h1, h2, h3, h4, h5⟩ := hn
    rw [print_result_switch T v h1 h2, if_neg h3, if_neg h4, if_neg h5]
  refine ⟨key, silent, ?_, ?_⟩
  · intro he hp
    obtain ⟨body, hb, _⟩ := key hp
    rw [hb] at he
    have hd := congrArg String.data he
    rw [String.data_append] at hd
    simp at hd
  · intro hn
    rw [silent hn]
    rfl

/-- Witness of the amended C6: on the sample constants the integer word 84 is
written as the line `42`, and nothing is written for `val_void`. -/
theorem one_line_contract_witness :
    prints_line sample_types 84 ∧
    (∃ body, stdout (fun _ => "c") (print_result sample_types 84).events = body ++ "\n" ∧
      (¬ int_test sample_types 84 ∧ char_test sample_types 84 → body = "c") ∧
      (¬ (¬ int_test sample_types 84 ∧ char_test sample_types 84) →
        body.data ≠ [] ∧ '\n' ∉ body.data)) ∧
    ¬ prints_line sample_types 15 ∧
    (print_result sample_types 15).events = [] :=
  ⟨by decide, (one_line_contract sample_types 84 (fun _ => "c")).1 (by decide), by decide,
    (one_line_contract sample_types 15 (fun _ => "c")).2.1 (by decide)⟩

/-- C7, unrecognized words are a silent no-op.  A word that fails the integer
test and the character test and differs from the four singleton constants
makes `print_result` return normally with no event at all: no output, no
`err` text, no run of the error routine, no termination of the process. -/
theorem unrecognized_silent (T : Types) (v : Nat) (h1 : ¬ int_test T v)
    (h2 : ¬ char_test T v) (h3 : v ≠ T.val_true) (h4 : v ≠ T.val_false)
    (h5 : v ≠ T.val_eof) (_h6 : v ≠ T.val_void) :
    print_result T v = ⟨[], .returned ()⟩ ∧
    (∀ char_text, stdout char_text (print_result T v).events = "") ∧
    print_result T v ≠ error ∧
    ∀ status, (print_result T v).outcome ≠ .exited status := by
  have h : print_result T v = ⟨[], .returned ()⟩ := by
    rw [print_result_switch T v h1 h2, if_neg h3, if_neg h4, if_neg h5]
  refine ⟨h, fun _ => by rw [h]; rfl, ?_, ?_⟩
  · rw [h]; decide
  · intro status
    rw [h]
    simp

/-- Witness of C7: the word 19 on the sample constants. -/
theorem unrecognized_silent_witness :
    print_result sample_types 19 = ⟨[], .returned ()⟩ :=
  (unrecognized_silent sample_types 19 (by decide) (by decide) (by decide) (by decide)
    (by decide) (by decide)).1

/-- C8 as stated fails: on the sample constants the word 27 matches no class
and no singleton, and `print_result` returns without any event; it does not
behave as the error routine, which writes `err` and exits with status 1. -/
theorem error_call_counterexample :
    (27 : Nat) < 2 ^ 64 ∧ ¬ int_test sample_types 27 ∧ ¬ char_test sample_types 27 ∧
    27 ∉ [sample_types.val_true, sample_types.val_false, sample_types.val_eof,
      sample_types.val_void] ∧
    print_result sample_types 27 = ⟨[], .returned ()⟩ ∧
    print_result sample_types 27 ≠ error ∧
    error = ⟨[.printf "err\n"], .exited 1⟩ := by
  decide

/-- C8, amended.  `print_result` never runs the error routine: for every word
it returns to its caller, it never writes `err`, its run is never one that
ends in the error routine, and for a word that matches no class and no
singleton it produces no event at all. -/
theorem print_result_never_errors (T : Types) (v : Nat) :
    (print_result T v).outcome = .returned () ∧
    Event.printf "err\n" ∉ (print_result T v).events ∧
    (∀ r : Run Unit, print_result T v ≠ r.bind fun _ => error) ∧
    (¬ int_test T v ∧ ¬ char_test T v ∧
        v ∉ [T.val_true, T.val_false, T.val_eof, T.val_void] →
      (print_result T v).events = []) := by
  refine ⟨print_result_returns T v, print_result_no_err T v, ?_, ?_⟩
  · intro r h
    exact bind_error_outcome r (by rw [← h]; exact print_result_returns T v)
  · rintro ⟨h1, h2, h3⟩
    simp only [List.mem_cons, List.mem_singleton, not_or, List.not_mem_nil] at h3
    rw [print_result_switch T v h1 h2, if_neg h3.1, if_neg h3.2.1, if_neg h3.2.2.1]

/-- Witness of the amended C8 on the sample constants and the word 27. -/
theorem print_result_never_errors_witness :
    (print_result sample_types 27).outcome = .returned () ∧
    (print_result sample_types 27).events = [] :=
  ⟨(print_result_never_errors sample_types 27).1,
    (print_result_never_errors sample_types 27).2.2.2 (by decide)⟩

/-- C9, error routine and normal exit.  A run of `error` writes exactly `err`
and a newline and then ends the process with status 1; nothing placed after
the call is run.  A process whose `entry` runs `error` ends with status 1.
When `entry` returns a value, `main` runs `print_result` on it and the process
ends with status 0, whatever the value. -/
theorem error_routine_and_exit_status :
    error = ⟨[.printf "err\n"], .exited 1⟩ ∧
    (∀ char_text, stdout char_text error.events = "err\n") ∧
    (∀ (β : Type) (k : Unit → Run β), error.bind k = ⟨[.printf "err\n"], .exited 1⟩) ∧
    (∀ (T : Types) (pre : Run Unit) (k : Unit → Run Nat),
      pre.outcome = .returned () →
      main T (pre.bind fun _ => error.bind k)
        = ⟨pre.events ++ [.printf "err\n"], .exited 1⟩ ∧
      exit_status (main T (pre.bind fun _ => error.bind k)) = 1) ∧
    (∀ (T : Types) (entry : Run Nat) (v : Nat), entry.outcome = .returned v →
      main T entry = ⟨entry.events ++ (print_result T v).events, .returned 0⟩ ∧
      exit_status (main T entry) = 0) := by
  refine ⟨rfl, fun _ => rfl, fun _ _ => rfl, ?_, ?_⟩
  · intro T pre k h
    have hm : main T (pre.bind fun _ => error.bind k)
        = ⟨pre.events ++ [.printf "err\n"], .exited 1⟩ := by
      simp [main, bind, Run.bind, h, error, printf, exit]
    exact ⟨hm, by rw [hm]; rfl⟩
  · intro T entry v h
    have hr := print_result_returns T v
    have hm : main T entry = ⟨entry.events ++ (print_result T v).events, .returned 0⟩ := by
      simp [main, bind, Run.bind, h, hr, pure]
    exact ⟨hm, by rw [hm]; rfl⟩

/-- Witness of C9: `entry` returns the word 84 after no event; the process
writes `42` and ends with status 0. -/
theorem error_routine_and_exit_status_witness :
    main sample_types ⟨[], .returned 84⟩ = ⟨[.printf "42\n"], .returned 0⟩ ∧
    exit_status (main sample_types ⟨[], .returned 84⟩) = 0 ∧
    exit_status (main sample_types ((⟨[], .returned ()⟩ : Run Unit).bind fun _ =>
      error.bind fun _ => pure 0)) = 1 :=
  ⟨(error_routine_and_exit_status.2.2.2.2 sample_types ⟨[], .returned 84⟩ 84 rfl).1,
    (error_routine_and_exit_status.2.2.2.2 sample_types ⟨[], .returned 84⟩ 84 rfl).2,
    (error_routine_and_exit_status.2.2.2.1 sample_types ⟨[], .returned ()⟩ (fun _ => pure 0)
      rfl).2⟩

/-- C10, classification priority for arbitrary constants and words.  A word
that passes the integer test is written in integer form, whatever else it
matches; a word that fails the integer test and passes the character test is
written in character form, whatever singleton it equals; and a singleton text
is written only for a word that fails both mask tests. -/
theorem classification_priority (T : Types) (v : Nat) :
    (int_test T v →
      print_result T v
        = ⟨[.printf (fmt_PRId64 (toInt64 v >>> T.int_shift) ++ "\n")], .returned ()⟩) ∧
    (¬ int_test T v → char_test T v →
      print_result T v = ⟨[.print_char v, .printf "\n"], .returned ()⟩) ∧
    ((print_result T v).events = [.printf "#t\n"] ∨
      (print_result T v).events = [.printf "#f\n"] ∨
      (print_result T v).events = [.printf "#<eof>\n"] →
      ¬ int_test T v ∧ ¬ char_test T v) := by
  refine ⟨fun h => print_result_int T v h, fun h1 h2 => print_result_char T v h1 h2, ?_⟩
  intro h
  have hne : ∀ s : String, s.data.head? = some '#' →
      (print_result T v).events = [.printf s] → ¬ int_test T v ∧ ¬ char_test T v := by
    intro s hs he
    by_cases h1 : int_test T v
    · rw [print_result_int T v h1] at he
      have h2 : fmt_PRId64 (toInt64 v >>> T.int_shift) ++ "\n" = s := by
        simpa [printf] using he
      exact absurd h2 (fmt_line_ne _ s '#' hs (by decide) (by decide))
    · refine ⟨h1, fun h2 => ?_⟩
      rw [print_result_char T v h1 h2] at he
      simp at he
  rcases h with h | h | h
  · exact hne "#t\n" rfl h
  · exact hne "#f\n" rfl h
  · exact hne "#<eof>\n" rfl h

/-- Witness of C10 on constants whose classes overlap: `val_true = 2` passes
the integer test and is written as `1`; `val_false = 5` fails it, passes the
character test and is handed to `print_char`. -/
theorem classification_priority_witness :
    (int_test clash_types clash_types.val_true ∧
      print_result clash_types clash_types.val_true = ⟨[.printf "1\n"], .returned ()⟩) ∧
    (¬ int_test clash_types clash_types.val_false ∧
      char_test clash_types clash_types.val_false ∧
      print_result clash_types clash_types.val_false
        = ⟨[.print_char 5, .printf "\n"], .returned ()⟩) :=
  ⟨⟨by decide, (classification_priority clash_types clash_types.val_true).1 (by decide)⟩,
    by decide, by decide,
    (classification_priority clash_types clash_types.val_false).2.1 (by decide) (by decide)⟩

/-! ## Injectivity of the integer form -/

theorem fmt_PRId64_injective (a b : Int) (h : fmt_PRId64 a = fmt_PRId64 b) : a = b := by
  have h2 := congrArg (fun s => signed_decimal_value s.data) h
  simpa [signed_decimal_value_fmt] using h2

theorem append_newline_cancel (s t : String) (h : s ++ "\n" = t ++ "\n") : s = t := by
  have h2 := congrArg String.data h
  rw [String.data_append, String.data_append] at h2
  exact String.ext (List.append_cancel_right h2)

theorem toInt64_emod (v k : Nat) (hk : k ≤ 64) : toInt64 v % 2 ^ k = (v : Int) % 2 ^ k := by
  have h64 : (2:Int) ^ 64 = 2 ^ k * 2 ^ (64 - k) := by rw [← pow_add]; congr 1; omega
  unfold toInt64
  split
  · rfl
  · have e : (v : Int) - 2 ^ k * 2 ^ (64 - k) = (v : Int) + 2 ^ k * (-(2 ^ (64 - k))) := by
      ring
    rw [h64, e, Int.add_mul_emod_self_left]

theorem toInt64_injective (v w : Nat) (hv : v < 2 ^ 64) (hw : w < 2 ^ 64)
    (h : toInt64 v = toInt64 w) : v = w := by
  unfold toInt64 at h
  split at h <;> split at h <;> omega

/-- Two 64-bit words with the same low `k` bits and the same arithmetic shift by
`k` are equal. -/
theorem word_eq_of_shift_eq (v w k : Nat) (hv : v < 2 ^ 64) (hw : w < 2 ^ 64)
    (hlow : v % 2 ^ k = w % 2 ^ k) (hsh : toInt64 v >>> k = toInt64 w >>> k) : v = w := by
  by_cases hk : k ≤ 64
  · apply toInt64_injective v w hv hw
    rw [Int.shiftRight_eq_div_pow, Int.shiftRight_eq_div_pow] at hsh
    have hm : toInt64 v % 2 ^ k = toInt64 w % 2 ^ k := by
      rw [toInt64_emod v k hk, toInt64_emod w k hk]
      exact_mod_cast congrArg (fun n : Nat => (n : Int)) hlow
    have e1 := Int.ediv_add_emod (toInt64 v) (2 ^ k)
    have e2 := Int.ediv_add_emod (toInt64 w) (2 ^ k)
    have hsh2 : toInt64 v / 2 ^ k = toInt64 w / 2 ^ k := by exact_mod_cast hsh
    rw [← e1, ← e2, hsh2, hm]
  · have hlt : (2:Nat) ^ 64 < 2 ^ k := Nat.pow_lt_pow_right (by decide) (by omega)
    rw [Nat.mod_eq_of_lt (Nat.lt_trans hv hlt), Nat.mod_eq_of_lt (Nat.lt_trans hw hlt)] at hlow
    exact hlow

/-- C11, integer decoding is injective on integer-tagged words.  When
`int_type_mask = 2 ^ int_shift - 1`, two 64-bit words that both pass the
integer test and for which `print_result` writes the same text are equal: no
two distinct integer-tagged words print the same output. -/
theorem integer_decoding_injective (T : Types) (v w : Nat)
    (hmask : T.int_type_mask = 2 ^ T.int_shift - 1) (hv : v < 2 ^ 64) (hw : w < 2 ^ 64)
    (h1 : int_test T v) (h2 : int_test T w) (char_text : Nat → String)
    (hout : stdout char_text (print_result T v).events
      = stdout char_text (print_result T w).events) : v = w := by
  rw [print_result_int T v h1, print_result_int T w h2] at hout
  have ht : fmt_PRId64 (toInt64 v >>> T.int_shift) ++ "\n"
      = fmt_PRId64 (toInt64 w >>> T.int_shift) ++ "\n" := by
    simpa [printf, stdout] using hout
  have hs : toInt64 v >>> T.int_shift = toInt64 w >>> T.int_shift :=
    fmt_PRId64_injective _ _ (append_newline_cancel _ _ ht)
  have hlow : v % 2 ^ T.int_shift = w % 2 ^ T.int_shift := by
    have a1 : v &&& T.int_type_mask = T.int_type_tag := h1
    have a2 : w &&& T.int_type_mask = T.int_type_tag := h2
    rw [hmask, Nat.and_pow_two_sub_one_eq_mod] at a1 a2
    rw [a1, a2]
  exact word_eq_of_shift_eq v w T.int_shift hv hw hlow hs

/-- Witness of C11 on the sample constants: the hypotheses hold at the word 84,
and the distinct integer words 84 and 86 are printed differently. -/
theorem integer_decoding_injective_witness :
    (sample_types.int_type_mask = 2 ^ sample_types.int_shift - 1 ∧
      int_test sample_types 84 ∧ int_test sample_types 86 ∧ (84 : Nat) = 84) ∧
    stdout (fun _ => "") (print_result sample_types 84).events
      ≠ stdout (fun _ => "") (print_result sample_types 86).events :=
  ⟨⟨by decide, by decide, by decide,
      integer_decoding_injective sample_types 84 84 (by decide) (by decide) (by decide)
        (by decide) (by decide) (fun _ => "") rfl⟩,
    fun h => absurd (integer_decoding_injective sample_types 84 86 (by decide) (by decide)
      (by decide) (by decide) (by decide) (fun _ => "") h) (by decide)⟩

end Fraud
